import Mathlib

/-!
Shallow embedding of the FireblocksWSLScripts analysis pipeline.

Numbers (JavaScript 64-bit floats used only for comparisons, sums, products
and divisions on parsed decimal inputs) are modelled as exact rationals ℚ.
JSON objects / JS `Map`s acting as string-keyed dictionaries are modelled as
functions `String → Option ℚ` (a key absent from the object maps to `none`).
`num(x)` coercion of an absent value to `0` is `numOpt`.
-/

namespace FBScripts

/-- Char-list helper: `startsL pat s` is true when `pat` is an initial
segment of `s` (used to model both JS `String.startsWith` and the anchored
regexes `/^USDC/` etc.). -/
def startsL : List Char → List Char → Bool
  | [], _ => true
  | _ :: _, [] => false
  | p :: ps, c :: cs => p == c && startsL ps cs

/-- Char-list helper: `hasSubL pat s` is true when `pat` occurs as a
contiguous substring of `s` (models JS `String.includes`). -/
def hasSubL (pat : List Char) : List Char → Bool
  | [] => startsL pat []
  | c :: rest => startsL pat (c :: rest) || hasSubL pat rest

/-- Model of JS `s.includes(pat)`. -/
def strIncludes (s pat : String) : Bool :=
  hasSubL pat.toList s.toList

/-- Model of JS `s.startsWith(pat)` / anchored regex test. -/
def strStarts (s pat : String) : Bool :=
  startsL pat.toList s.toList

/-- JS `String.toUpperCase` on the ASCII asset ids, as a char-list map. -/
def upperChars (s : String) : List Char :=
  s.toList.map Char.toUpper

/-- `isStable` from `fireblocks_analysis_v2.js` (lines 67-70): uppercase the
asset id and test for the stable-ticker substrings USDC / USDT / BUSD / TUSD. -/
def isStable (assetId : String) : Bool :=
  let a := upperChars assetId
  hasSubL "USDC".toList a || hasSubL "USDT".toList a ||
    hasSubL "BUSD".toList a || hasSubL "TUSD".toList a

/-- `isStable` from `src/unnamed/part_004` (lines 127-130): anchored prefix
tests `/^USDC/`, `/^USDT/`, equality with TUSD, `/^BUSD/`. -/
def isStable4 (assetId : String) : Bool :=
  strStarts assetId "USDC" || strStarts assetId "USDT" || assetId == "TUSD" || strStarts assetId "BUSD"

/-- JS `num(x)` applied to a possibly-absent number: an absent value coerces
to `0` (`Number(String(undefined ?? "")) = 0` path of `num`). -/
def numOpt (p : Option ℚ) : ℚ := p.getD 0

/-- A parsed plan row (`plan.csv` row after the string-boolean parsing done
in `fireblocks_analysis_v2.js` lines 160-168 / `part_004` lines 100-111). -/
structure PlanRow where
  sourceVaultId : String
  assetId : String
  amount : ℚ
  destinationVaultId : String
  requiresGas : Bool
  gasAssetId : String
  gasReady : Bool
deriving DecidableEq

/-- RowId composite key, `fireblocks_analysis_v2.js` line 170 /
`part_004` line 196. -/
def rowIdOf (r : PlanRow) : String :=
  r.sourceVaultId ++ "|" ++ r.assetId ++ "|" ++ r.destinationVaultId

/-- The four classification reasons of `fireblocks_analysis_v2.js`. -/
inductive Reason where
  | READY_TO_EXECUTE
  | NEEDS_GAS
  | BELOW_MIN
  | UNKNOWN_PRICE
deriving DecidableEq

/-- Which precedence rule produced the minimum-amount threshold
(`minAmountFor`, lines 181-187; the source stores a label string whose
numeric suffix is omitted here). -/
inductive MinBasis where
  | min_by_asset
  | stable_usd_floor
  | usd_floor
  | no_price_no_floor
deriving DecidableEq

/-- The environment the v2 classification loop reads: the price map produced
by `getPrices`, the per-asset minimum table `minByAsset`, and the two USD
floor parameters. -/
structure AnalysisEnv where
  prices : String → Option ℚ
  minByAsset : String → Option ℚ
  stablecoinMinUsd : ℚ
  minUsdPerTx : ℚ

/-- `minAmountFor` of `fireblocks_analysis_v2.js` (lines 181-187):
per-asset override, else stable USD floor, else USD floor divided by a known
positive price, else no floor. -/
def minAmountFor (env : AnalysisEnv) (assetId : String) : Option ℚ × MinBasis :=
  match env.minByAsset assetId with
  | some m => (some m, MinBasis.min_by_asset)
  | none =>
    if isStable assetId then (some env.stablecoinMinUsd, MinBasis.stable_usd_floor)
    else
      let p := numOpt (env.prices assetId)
      if 0 < p then (some (env.minUsdPerTx / p), MinBasis.usd_floor)
      else (none, MinBasis.no_price_no_floor)

/-- `priceKnown` of the classification loop (line 197):
`num(p) > 0 || isStable(assetId)`. -/
def priceKnownOf (env : AnalysisEnv) (r : PlanRow) : Bool :=
  decide (0 < numOpt (env.prices r.assetId)) || isStable r.assetId

/-- Reason after lines 202-204 (gas check first, then strict `<` against a
non-null minimum), before the unknown-price rewrite of line 205. -/
def preReason (env : AnalysisEnv) (r : PlanRow) : Reason :=
  if r.requiresGas && !r.gasReady then Reason.NEEDS_GAS
  else
    match (minAmountFor env r.assetId).1 with
    | some m => if r.amount < m then Reason.BELOW_MIN else Reason.READY_TO_EXECUTE
    | none => Reason.READY_TO_EXECUTE

/-- Line 205: an unknown price turns READY_TO_EXECUTE into UNKNOWN_PRICE and
leaves every other reason unchanged. -/
def finalReason (env : AnalysisEnv) (r : PlanRow) : Reason :=
  if !priceKnownOf env r then
    (if preReason env r = Reason.READY_TO_EXECUTE then Reason.UNKNOWN_PRICE else preReason env r)
  else preReason env r

/-- One classified remaining row (the record pushed at line 207). -/
structure ClassifiedRow where
  row : PlanRow
  priceUSD : Option ℚ
  estUSD : Option ℚ
  minAmt : Option ℚ
  minBasis : MinBasis
  reason : Reason

/-- Body of the v2 classification loop (lines 195-207) for one candidate row.
In the non-stable branch of `estUSD` the raw `p` is a defined number exactly
when `priceKnown` holds without `isStable`, so `numOpt` coincides with it. -/
def classifyRow (env : AnalysisEnv) (r : PlanRow) : ClassifiedRow :=
  let p := env.prices r.assetId
  let priceKnown := priceKnownOf env r
  let estUSD : Option ℚ :=
    if priceKnown then some (r.amount * (if isStable r.assetId then 1 else numOpt p)) else none
  let mb := minAmountFor env r.assetId
  { row := r
    priceUSD := if priceKnown then some (if isStable r.assetId then 1 else numOpt p) else none
    estUSD := estUSD
    minAmt := mb.1
    minBasis := mb.2
    reason := finalReason env r }

/-- Candidate collection plus classification (lines 160-213): plan rows whose
RowId is in the completed set are skipped (`continue` at line 173); every
other row is classified. The imperative loop with `continue` is the
filter-then-map below. -/
def remainingRows (completed : List String) (env : AnalysisEnv) (plan : List PlanRow) :
    List ClassifiedRow :=
  (plan.filter (fun r => !(completed.contains (rowIdOf r)))).map (classifyRow env)

/-! ## Receivership variant classifier (`src/unnamed/part_004`) -/

/-- Statuses assigned by the per-row loop of `part_004` (lines 205-246). -/
inductive Status4 where
  | READY_NOW
  | NEEDS_GAS
  | NOT_WORTH
deriving DecidableEq

/-- Environment of the `part_004` per-row loop: the price snapshot
(`priceOf`), the native gas-fee table `gas_fee_native.json`, and the two USD
minimum policies. -/
structure Receivership where
  prices : String → Option ℚ
  feeNative : String → Option ℚ
  minUsdPerTx : ℚ
  stablecoinMinUsd : ℚ

/-- The fields the `part_004` loop computes for one remaining row. -/
structure Row4Result where
  valueUsd : Option ℚ
  minUsdPolicy : ℚ
  belowMin : Bool
  estGasUsd : Option ℚ
  gasNotWorth : Bool
  status : Status4

/-- Body of the `part_004` per-row loop (lines 217-246): value in USD when
the price is known, USD minimum by stable/non-stable policy, `belowMin` by
strict `<` on the known value, estimated gas cost, `gasNotWorth`, and the
status: READY_NOW, overwritten to NEEDS_GAS when gas-blocked (line 241),
then overwritten to NOT_WORTH when `belowMin || gasNotWorth` (lines 243-246). -/
def classify4 (env : Receivership) (r : PlanRow) : Row4Result :=
  let assetPx := env.prices r.assetId
  let valueUsd := assetPx.map (fun px => r.amount * px)
  let minUsd := if isStable4 r.assetId then env.stablecoinMinUsd else env.minUsdPerTx
  let belowMin : Bool :=
    match valueUsd with
    | some v => decide (v < minUsd)
    | none => false
  let estGasUsd : Option ℚ :=
    if r.requiresGas then
      match env.feeNative r.gasAssetId, env.prices r.gasAssetId with
      | some gn, some gp => some (gn * gp)
      | _, _ => none
    else none
  let gasNotWorth : Bool :=
    match valueUsd, estGasUsd with
    | some v, some g => decide (v ≤ g) && r.requiresGas
    | _, _ => false
  let status0 := if r.requiresGas && !r.gasReady then Status4.NEEDS_GAS else Status4.READY_NOW
  { valueUsd := valueUsd
    minUsdPolicy := minUsd
    belowMin := belowMin
    estGasUsd := estGasUsd
    gasNotWorth := gasNotWorth
    status := if belowMin || gasNotWorth then Status4.NOT_WORTH else status0 }

/-- Remaining-row filter of `part_004` (lines 198-203): keep plan rows whose
RowId is not in the completed ledger set. -/
def remaining4 (completed : List String) (plan : List PlanRow) : List PlanRow :=
  plan.filter (fun r => !(completed.contains (rowIdOf r)))

/-! ## Dictionary update and generic fold invariants -/

/-- Pointwise model of the JS assignment `obj[k] = v` on a string-keyed map. -/
def upd (m : String → Option ℚ) (k : String) (v : ℚ) : String → Option ℚ :=
  fun x => if x = k then some v else m x

theorem upd_same (m : String → Option ℚ) (k : String) (v : ℚ) : upd m k v k = some v := by
  simp [upd]

theorem upd_other (m : String → Option ℚ) (k x : String) (v : ℚ) (h : x ≠ k) :
    upd m k v x = m x := by
  simp [upd, h]

/-- A property preserved by every step of a left fold holds of the result. -/
theorem foldl_invariant {α β : Type} (f : β → α → β) (P : β → Prop)
    (hf : ∀ b x, P b → P (f b x)) :
    ∀ (l : List α) (b : β), P b → P (l.foldl f b) := by
  intro l
  induction l with
  | nil => intro b hb; exact hb
  | cons x xs ih => intro b hb; exact ih (f b x) (hf b x hb)

/-- A property established by folding some element of the list, and preserved
by every step, holds of the fold's result. -/
theorem foldl_establish {α β : Type} (f : β → α → β) (P : β → Prop)
    (hf : ∀ b x, P b → P (f b x)) (a : α) (ha : ∀ b, P (f b a)) :
    ∀ (l : List α) (b : β), a ∈ l → P (l.foldl f b) := by
  intro l
  induction l with
  | nil => intro b hb; cases hb
  | cons x xs ih =>
    intro b hb
    rcases List.mem_cons.mp hb with h | h
    · subst h
      exact foldl_invariant f P hf xs (f b a) (ha b)
    · exact ih (f b x) h

/-! ## Layered price resolver `loadPricesUsd` (`src/unnamed/part_007`, lines 241-300) -/

/-- The three values of the PRICE_SOURCE environment switch. -/
inductive PriceSource where
  | coingecko
  | cache
  | offline
deriving DecidableEq

/-- Lines 243-246: apply manual overrides first; a defined override value is
assigned via `Number(...)` with no positivity check. -/
def applyOverridesStep (overrides : String → Option ℚ) (assetIds : List String) :
    String → Option ℚ :=
  assetIds.foldl
    (fun m a =>
      match overrides a with
      | some v => upd m a v
      | none => m)
    (fun _ => none)

/-- Lines 253-258 (PRICE_SOURCE=cache): fill every still-unresolved asset
from the persisted cache. -/
def cacheStep (cached : String → Option ℚ) (assetIds : List String)
    (m0 : String → Option ℚ) : String → Option ℚ :=
  assetIds.foldl
    (fun m a =>
      if (m a).isSome then m
      else
        match cached a with
        | some v => upd m a v
        | none => m)
    m0

/-- Lines 262-277 (coingecko collection phase): each unresolved asset with a
CoinGecko mapping becomes a pending (asset, cgId) pair; an unresolved asset
without a mapping falls back to the cache when present. -/
def cgCollect (assetToCg : String → Option String) (cached : String → Option ℚ)
    (assetIds : List String) (m0 : String → Option ℚ) :
    (String → Option ℚ) × List (String × String) :=
  assetIds.foldl
    (fun st a =>
      if (st.1 a).isSome then st
      else
        match assetToCg a with
        | some cg => (st.1, st.2 ++ [(a, cg)])
        | none =>
          match cached a with
          | some v => (upd st.1 a v, st.2)
          | none => st)
    (m0, [])

/-- Lines 279-291 (batched fetch phase): every pending asset whose CoinGecko
id resolved to a usd value is assigned it. The network is modelled as a pure
function from CoinGecko id to optional price, under which the 150-id
chunking and the grouping through cgToAsset do not change the final map. -/
def cgFetchStep (fetch : String → Option ℚ) (pend : List (String × String))
    (m0 : String → Option ℚ) : String → Option ℚ :=
  pend.foldl
    (fun m p =>
      match fetch p.2 with
      | some u => upd m p.1 u
      | none => m)
    m0

/-- `loadPricesUsd` (lines 241-300): overrides first, then return directly
(offline), fill from cache (cache), or collect-and-fetch from CoinGecko with
cache fallback for unmapped assets (coingecko). -/
def loadPricesUsd (src : PriceSource) (overrides cached : String → Option ℚ)
    (assetToCg : String → Option String) (fetch : String → Option ℚ)
    (assetIds : List String) : String → Option ℚ :=
  let prices1 := applyOverridesStep overrides assetIds
  match src with
  | PriceSource.offline => prices1
  | PriceSource.cache => cacheStep cached assetIds prices1
  | PriceSource.coingecko =>
    let st := cgCollect assetToCg cached assetIds prices1
    cgFetchStep fetch st.2 st.1

/-- Per-asset stats of `part_007` (lines 412-419): `hasPrice` is
`Number.isFinite(price)` — true for any stored rational, including 0 — and
the reported resolution method depends only on which tables define the key. -/
def assetMethod (overrides : String → Option ℚ) (assetToCg : String → Option String)
    (cached : String → Option ℚ) (a : String) : String :=
  if (overrides a).isSome then "override"
  else if (assetToCg a).isSome then "coingecko"
  else if (cached a).isSome then "cache"
  else "unknown"

/-- Line 415: `usdTotal = hasPrice ? A.sumTotal * price : 0`. -/
def assetUsdTotal (priceOpt : Option ℚ) (sumTotal : ℚ) : ℚ :=
  match priceOpt with
  | some p => sumTotal * p
  | none => 0

/-! ## Override application in `fb_update_prices` (`src/unnamed/part_006`, lines 178-185) -/

/-- Overrides step of the `fb_update_prices` pricer: a price is assigned from
an override entry only when `Number.isFinite(n) && n > 0`; a rational is
always finite, so the guard is `0 < n`. The JSON object's entries are
modelled as an association list. -/
def updatePricesOverrideStep (entries : List (String × ℚ)) : String → Option ℚ :=
  entries.foldl
    (fun m kv => if 0 < kv.2 then upd m kv.1 kv.2 else m)
    (fun _ => none)

/-! ## v2 price pipeline and merged cache write (`fireblocks_analysis_v2.js`, lines 72-124) -/

/-- Lines 76-78: stable assets are priced at 1 first. -/
def getPricesStable (assets : List String) : String → Option ℚ :=
  assets.foldl (fun m a => if isStable a then upd m a 1 else m) (fun _ => none)

/-- Lines 80-84: still-unpriced assets take a cached price when
`num(cached[a]) > 0`. -/
def getPricesCached (cached : String → Option ℚ) (assets : List String)
    (m0 : String → Option ℚ) : String → Option ℚ :=
  assets.foldl
    (fun m a =>
      if (m a).isSome then m
      else if 0 < numOpt (cached a) then upd m a (numOpt (cached a)) else m)
    m0

/-- Lines 91-116: live fetch over the (asset, cgId) pairs of still-unpriced
mapped assets; a fetched value is taken when `num(p) > 0`. A chunk whose
HTTP call fails is swallowed, which under the pure-function network model is
the same as its ids resolving to `none`. -/
def getPricesFetch (fetch : String → Option ℚ) (pairs : List (String × String))
    (m0 : String → Option ℚ) : String → Option ℚ :=
  pairs.foldl
    (fun m p =>
      if (m p.1).isSome then m
      else if 0 < numOpt (fetch p.2) then upd m p.1 (numOpt (fetch p.2)) else m)
    m0

/-- `getPrices` of `fireblocks_analysis_v2.js` (lines 72-124), price map only:
stable, then cache, then (unless offline) live fetch of mapped assets. -/
def getPricesRun (offline : Bool) (cached : String → Option ℚ)
    (assetToCg : String → Option String) (fetch : String → Option ℚ)
    (assets : List String) : String → Option ℚ :=
  let m1 := getPricesStable assets
  let m2 := getPricesCached cached assets m1
  if offline then m2
  else
    let pairs := assets.filterMap
      (fun a =>
        if (m2 a).isSome then none
        else
          match assetToCg a with
          | some cg => some (a, cg)
          | none => none)
    getPricesFetch fetch pairs m2

/-- Line 120: the cache file rewrite `merged = spread of the old cache file
then of this run's prices` — a key resolved this run wins, any other key
keeps its old cache value. -/
def mergedCacheWrite (cachedFile pricesRun : String → Option ℚ) : String → Option ℚ :=
  fun k =>
    match pricesRun k with
    | some v => some v
    | none => cachedFile k

/-! ## Cache write of `re_eval.js` `fetchPricesUsd` (lines 92-116) -/

/-- The prices object `re_eval.js` writes to `execute/last_prices_usd.json`
at lines 113-114: only the CoinGecko ids fetched in this run (the unique
non-empty mapping values, line 93) — the file is rewritten without reading
the previous cache. The asOf/source wrapper fields are omitted; Set
deduplication is omitted because repeated ids assign the same value. -/
def reEvalCacheWrite (assetToCg : List (String × String)) (fetch : String → Option ℚ) :
    String → Option ℚ :=
  ((assetToCg.map Prod.snd).filter (fun s => !(s == ""))).foldl
    (fun m id =>
      match fetch id with
      | some p => upd m id p
      | none => m)
    (fun _ => none)

/-! ## Percentile (`src/unnamed/part_002` lines 94-101; same algorithm at
`src/unnamed/part_007` lines 367-376 after an in-place sort) -/

/-- Linear-interpolation percentile on a sorted list: index `(n-1)*p`, value
the blend of the floor- and ceil-index entries. Out-of-range indexing (which
only occurs for `p` outside `[0,1]`) is modelled with default 0. -/
def percentile (sorted : List ℚ) (p : ℚ) : ℚ :=
  if sorted.length = 0 then 0
  else
    let idx : ℚ := ((sorted.length - 1 : ℕ) : ℚ) * p
    let lo := ⌊idx⌋
    let hi := ⌈idx⌉
    if lo = hi then sorted.getD lo.toNat 0
    else
      let w := idx - (lo : ℚ)
      sorted.getD lo.toNat 0 * (1 - w) + sorted.getD hi.toNat 0 * w

/-! ## Projection lemmas (all definitional) -/

lemma classifyRow_reason (env : AnalysisEnv) (r : PlanRow) :
    (classifyRow env r).reason = finalReason env r := rfl

lemma classifyRow_row (env : AnalysisEnv) (r : PlanRow) :
    (classifyRow env r).row = r := rfl

lemma classifyRow_priceUSD (env : AnalysisEnv) (r : PlanRow) :
    (classifyRow env r).priceUSD =
      (if priceKnownOf env r then
        some (if isStable r.assetId then 1 else numOpt (env.prices r.assetId)) else none) := rfl

lemma classifyRow_estUSD (env : AnalysisEnv) (r : PlanRow) :
    (classifyRow env r).estUSD =
      (if priceKnownOf env r then
        some (r.amount * (if isStable r.assetId then 1 else numOpt (env.prices r.assetId)))
       else none) := rfl

lemma classifyRow_minAmt (env : AnalysisEnv) (r : PlanRow) :
    (classifyRow env r).minAmt = (minAmountFor env r.assetId).1 := rfl

lemma classify4_status (env : Receivership) (r : PlanRow) :
    (classify4 env r).status =
      (if (classify4 env r).belowMin || (classify4 env r).gasNotWorth then Status4.NOT_WORTH
       else if r.requiresGas && !r.gasReady then Status4.NEEDS_GAS else Status4.READY_NOW) := rfl

/-! ## Helper lemmas about the v2 reason assignment -/

/-- The pre-guard reason is never UNKNOWN_PRICE: lines 202-204 only produce
READY_TO_EXECUTE, NEEDS_GAS or BELOW_MIN. -/
lemma preReason_ne_unknown (env : AnalysisEnv) (r : PlanRow) :
    preReason env r ≠ Reason.UNKNOWN_PRICE := by
  unfold preReason
  split
  · simp
  · split
    · split <;> simp
    · simp

/-- Gas-blocked rows get NEEDS_GAS before the unknown-price guard. -/
lemma preReason_gas (env : AnalysisEnv) (r : PlanRow)
    (h : (r.requiresGas && !r.gasReady) = true) :
    preReason env r = Reason.NEEDS_GAS := by
  unfold preReason
  rw [h]
  simp

/-- Pre-guard READY_TO_EXECUTE characterisation. -/
lemma preReason_ready_iff (env : AnalysisEnv) (r : PlanRow) :
    preReason env r = Reason.READY_TO_EXECUTE ↔
      (r.requiresGas && !r.gasReady) = false ∧
        ∀ m, (minAmountFor env r.assetId).1 = some m → ¬ r.amount < m := by
  unfold preReason
  rcases hg : (r.requiresGas && !r.gasReady) with _ | _
  · rcases hm : (minAmountFor env r.assetId).1 with _ | m
    · simp
    · rcases hlt : decide (r.amount < m) with _ | _
      · simp at hlt
        simp [hlt]
      · simp at hlt
        simp [hlt]
  · simp

/-- Pre-guard BELOW_MIN characterisation. -/
lemma preReason_below_iff (env : AnalysisEnv) (r : PlanRow) :
    preReason env r = Reason.BELOW_MIN ↔
      (r.requiresGas && !r.gasReady) = false ∧
        ∃ m, (minAmountFor env r.assetId).1 = some m ∧ r.amount < m := by
  unfold preReason
  rcases hg : (r.requiresGas && !r.gasReady) with _ | _
  · rcases hm : (minAmountFor env r.assetId).1 with _ | m
    · simp
    · rcases hlt : decide (r.amount < m) with _ | _
      · simp at hlt
        simp [hlt]
      · simp at hlt
        simp [hlt]
  · simp

/-- The line-205 guard never changes NEEDS_GAS or BELOW_MIN, and turns
READY_TO_EXECUTE into UNKNOWN_PRICE exactly when the price is unknown. -/
lemma finalReason_cases (env : AnalysisEnv) (r : PlanRow) :
    finalReason env r =
      (if priceKnownOf env r = false ∧ preReason env r = Reason.READY_TO_EXECUTE
       then Reason.UNKNOWN_PRICE else preReason env r) := by
  unfold finalReason
  rcases hpk : priceKnownOf env r with _ | _
  · by_cases hpre : preReason env r = Reason.READY_TO_EXECUTE <;> simp [hpre]
  · simp

/-! ## Concrete inputs used by witnesses and counterexamples -/

/-- A receivership environment where FOO is priced at 3 USD, no gas-fee table
entries, MIN_USD_PER_TX 7, STABLECOIN_MIN_USD 9. -/
def env4X : Receivership :=
  { prices := fun a => if a = "FOO" then some 3 else none
    feeNative := fun _ => none
    minUsdPerTx := 7
    stablecoinMinUsd := 9 }

/-- A gas-blocked plan row of 1 FOO (worth 3 USD, under the 7 USD floor). -/
def row4X : PlanRow :=
  { sourceVaultId := "11", assetId := "FOO", amount := 1, destinationVaultId := "94828"
    requiresGas := true, gasAssetId := "ETH", gasReady := false }

/-- A v2 analysis environment with no prices and no per-asset minimums. -/
def envNoGasMin : AnalysisEnv :=
  { prices := fun _ => none
    minByAsset := fun _ => none
    stablecoinMinUsd := 9
    minUsdPerTx := 7 }

/-- A receivership environment with no prices and no gas-fee entries. -/
def envEmpty4 : Receivership :=
  { prices := fun _ => none
    feeNative := fun _ => none
    minUsdPerTx := 7
    stablecoinMinUsd := 9 }

/-- C1 counterexample. The claim says a remaining row with
`requiresGas = true, gasReady = false` always gets NEEDS_GAS and no other
reason, regardless of amount, price or minimum threshold. In the cited
`part_004` status assignment (lines 240-246), the gas-blocked row `row4X`
(1 FOO at a known 3 USD, below the 7 USD non-stable minimum) is instead
assigned NOT_WORTH: the below-minimum check overwrites NEEDS_GAS there. -/
theorem needs_gas_priority_counterexample :
    row4X.requiresGas = true ∧ row4X.gasReady = false ∧
      (classify4 env4X row4X).status = Status4.NOT_WORTH ∧
      (classify4 env4X row4X).status ≠ Status4.NEEDS_GAS := by
  refine ⟨rfl, rfl, ?_, ?_⟩ <;>
    · simp [classify4, env4X, row4X, isStable4, strStarts, startsL]
      norm_num

/-- C1 (amended): in the `fireblocks_analysis_v2.js` classifier a gas-blocked
row is always classified NEEDS_GAS, regardless of amount, price or minimum
threshold; in the `part_004` variant a gas-blocked row is NEEDS_GAS only
when it is not below the USD minimum policy and its estimated gas cost does
not reach its value — otherwise it is NOT_WORTH. -/
theorem needs_gas_priority_amended :
    (∀ (env : AnalysisEnv) (r : PlanRow), r.requiresGas = true → r.gasReady = false →
      (classifyRow env r).reason = Reason.NEEDS_GAS)
    ∧ (∀ (env4 : Receivership) (r : PlanRow), r.requiresGas = true → r.gasReady = false →
        (classify4 env4 r).belowMin = false → (classify4 env4 r).gasNotWorth = false →
        (classify4 env4 r).status = Status4.NEEDS_GAS) := by
  constructor
  · intro env r h1 h2
    rw [classifyRow_reason, finalReason_cases, preReason_gas env r (by rw [h1, h2]; rfl)]
    simp
  · intro env4 r h1 h2 hb hg
    rw [classify4_status, hb, hg, h1, h2]
    simp

/-- Witness for the amended C1: both conjuncts applied to the concrete
gas-blocked row `row4X` with environments under which its hypotheses hold. -/
theorem needs_gas_priority_amended_witness :
    (classifyRow envNoGasMin row4X).reason = Reason.NEEDS_GAS ∧
      (classify4 envEmpty4 row4X).status = Status4.NEEDS_GAS :=
  ⟨needs_gas_priority_amended.1 envNoGasMin row4X rfl rfl,
   needs_gas_priority_amended.2 envEmpty4 row4X rfl rfl
     (by simp [classify4, envEmpty4, row4X])
     (by simp [classify4, envEmpty4, row4X])⟩

/-- Splitting a list by a boolean predicate splits its length. -/
lemma length_filter_not_add_length_filter {α : Type} (p : α → Bool) (l : List α) :
    (l.filter (fun a => !(p a))).length + (l.filter p).length = l.length := by
  induction l with
  | nil => rfl
  | cons x xs ih =>
    rcases h : p x with _ | _ <;> simp [List.filter_cons, h] <;> omega

/-- C2: every classified remaining row of the v2 pipeline, and every
remaining row of the `part_004` filter, has a RowId outside the completed
set; and remaining and completed row counts partition the plan exactly, so
a completed row is never recounted as remaining. -/
theorem completed_exclusion :
    (∀ (completed : List String) (env : AnalysisEnv) (plan : List PlanRow) (c : ClassifiedRow),
        c ∈ remainingRows completed env plan → completed.contains (rowIdOf c.row) = false)
    ∧ (∀ (completed : List String) (plan : List PlanRow) (r : PlanRow),
        r ∈ remaining4 completed plan → completed.contains (rowIdOf r) = false)
    ∧ (∀ (completed : List String) (env : AnalysisEnv) (plan : List PlanRow),
        (remainingRows completed env plan).length
          + (plan.filter (fun r => completed.contains (rowIdOf r))).length = plan.length) := by
  refine ⟨?_, ?_, ?_⟩
  · intro completed env plan c hc
    rcases List.mem_map.mp hc with ⟨r, hr, hcr⟩
    rcases List.mem_filter.mp hr with ⟨_, hf⟩
    rw [← hcr, classifyRow_row]
    simpa using hf
  · intro completed plan r hr
    rcases List.mem_filter.mp hr with ⟨_, hf⟩
    simpa using hf
  · intro completed env plan
    have hlen : (remainingRows completed env plan).length
        = (plan.filter (fun r => !(completed.contains (rowIdOf r)))).length := by
      unfold remainingRows
      exact List.length_map _ _
    rw [hlen]
    exact length_filter_not_add_length_filter (fun r => completed.contains (rowIdOf r)) plan

/-- A plan row whose RowId 1|FOO|2 is in the completed ledger. -/
def rowAW : PlanRow :=
  { sourceVaultId := "1", assetId := "FOO", amount := 2, destinationVaultId := "2"
    requiresGas := false, gasAssetId := "", gasReady := false }

/-- A plan row whose RowId 3|FOO|2 is not in the completed ledger. -/
def rowBW : PlanRow :=
  { sourceVaultId := "3", assetId := "FOO", amount := 2, destinationVaultId := "2"
    requiresGas := false, gasAssetId := "", gasReady := false }

/-- The completed set containing exactly the RowId of `rowAW`. -/
def completedW : List String := ["1|FOO|2"]

/-- A two-row plan, one row completed and one remaining. -/
def planW : List PlanRow := [rowAW, rowBW]

/-- Witness for C2: on the concrete plan `planW`, the surviving classified
row is `rowBW` and its RowId is outside the completed set. -/
theorem completed_exclusion_witness :
    completedW.contains (rowIdOf (classifyRow envNoGasMin rowBW).row) = false :=
  completed_exclusion.1 completedW envNoGasMin planW (classifyRow envNoGasMin rowBW)
    (by rw [show remainingRows completedW envNoGasMin planW
              = [classifyRow envNoGasMin rowBW] from rfl]
        exact List.mem_singleton_self _)

/-- C3: a remaining row with unknown price (absent or not positive), no
per-asset minimum, non-stable asset and no gas requirement gets a null
minimum amount and classifies UNKNOWN_PRICE, never BELOW_MIN. -/
theorem unknown_price_non_skip (env : AnalysisEnv) (r : PlanRow)
    (hp : ¬ 0 < numOpt (env.prices r.assetId))
    (hm : env.minByAsset r.assetId = none)
    (hs : isStable r.assetId = false)
    (hg : r.requiresGas = false) :
    (minAmountFor env r.assetId).1 = none ∧
      (classifyRow env r).reason = Reason.UNKNOWN_PRICE ∧
      (classifyRow env r).reason ≠ Reason.BELOW_MIN := by
  have hmin : (minAmountFor env r.assetId).1 = none := by
    unfold minAmountFor
    rw [hm]
    simp [hs, hp]
  have hpk : priceKnownOf env r = false := by
    unfold priceKnownOf
    rw [hs]
    simp [hp]
  have hpre : preReason env r = Reason.READY_TO_EXECUTE := by
    rw [preReason_ready_iff]
    refine ⟨by rw [hg]; rfl, ?_⟩
    intro m hm'
    rw [hmin] at hm'
    cases hm'
  refine ⟨hmin, ?_, ?_⟩ <;>
    · rw [classifyRow_reason, finalReason_cases]
      simp [hpk, hpre]

/-- Witness for C3: the unpriced non-stable row `rowBW` under the empty
environment classifies UNKNOWN_PRICE with no minimum floor. -/
theorem unknown_price_non_skip_witness :
    (minAmountFor envNoGasMin rowBW.assetId).1 = none ∧
      (classifyRow envNoGasMin rowBW).reason = Reason.UNKNOWN_PRICE ∧
      (classifyRow envNoGasMin rowBW).reason ≠ Reason.BELOW_MIN :=
  unknown_price_non_skip envNoGasMin rowBW
    (by simp [envNoGasMin, numOpt]) rfl (by decide) rfl

/-- C4: gas blocking and below-minimum always keep their reason even when
the price is unknown; UNKNOWN_PRICE is assigned exactly when the price is
unknown and the row has no other disqualifying condition. -/
theorem unknown_price_no_override (env : AnalysisEnv) (r : PlanRow) :
    ((r.requiresGas && !r.gasReady) = true →
      (classifyRow env r).reason = Reason.NEEDS_GAS)
    ∧ ((r.requiresGas && !r.gasReady) = false →
        ∀ m, (minAmountFor env r.assetId).1 = some m → r.amount < m →
          (classifyRow env r).reason = Reason.BELOW_MIN)
    ∧ ((classifyRow env r).reason = Reason.UNKNOWN_PRICE ↔
        priceKnownOf env r = false ∧ (r.requiresGas && !r.gasReady) = false ∧
          ∀ m, (minAmountFor env r.assetId).1 = some m → ¬ r.amount < m) := by
  refine ⟨?_, ?_, ?_⟩
  · intro h
    rw [classifyRow_reason, finalReason_cases, preReason_gas env r h]
    simp
  · intro h m hm hlt
    have hpre : preReason env r = Reason.BELOW_MIN :=
      (preReason_below_iff env r).mpr ⟨h, m, hm, hlt⟩
    rw [classifyRow_reason, finalReason_cases, hpre]
    simp
  · rw [classifyRow_reason, finalReason_cases]
    constructor
    · intro h
      by_cases hc : priceKnownOf env r = false ∧ preReason env r = Reason.READY_TO_EXECUTE
      · rcases hc with ⟨h1, h2⟩
        rcases (preReason_ready_iff env r).mp h2 with ⟨hg, hmins⟩
        exact ⟨h1, hg, hmins⟩
      · rw [if_neg hc] at h
        exact absurd h (preReason_ne_unknown env r)
    · rintro ⟨h1, h2, h3⟩
      have hpre : preReason env r = Reason.READY_TO_EXECUTE :=
        (preReason_ready_iff env r).mpr ⟨h2, h3⟩
      rw [if_pos ⟨h1, hpre⟩]

/-- A v2 environment with no prices but a per-asset minimum of 5 for FOO. -/
def envMinW : AnalysisEnv :=
  { prices := fun _ => none
    minByAsset := fun a => if a = "FOO" then some 5 else none
    stablecoinMinUsd := 9
    minUsdPerTx := 7 }

/-- Witness for C4: the unpriced row `rowBW` (2 FOO) with a per-asset
minimum of 5 stays BELOW_MIN, not UNKNOWN_PRICE. -/
theorem unknown_price_no_override_witness :
    (classifyRow envMinW rowBW).reason = Reason.BELOW_MIN :=
  (unknown_price_no_override envMinW rowBW).2.1 rfl 5 rfl (by norm_num [rowBW])

/-- C9: with a non-null minimum `m`, BELOW_MIN holds exactly for a
non-gas-blocked row with `amount < m` (strict); at `amount = m` the row is
not BELOW_MIN and, if unblocked with a known price, is READY_TO_EXECUTE. -/
theorem below_min_strict_boundary (env : AnalysisEnv) (r : PlanRow) (m : ℚ)
    (hm : (minAmountFor env r.assetId).1 = some m) :
    ((classifyRow env r).reason = Reason.BELOW_MIN ↔
      (r.requiresGas && !r.gasReady) = false ∧ r.amount < m)
    ∧ (r.amount = m → (r.requiresGas && !r.gasReady) = false →
        priceKnownOf env r = true →
        (classifyRow env r).reason = Reason.READY_TO_EXECUTE) := by
  constructor
  · rw [classifyRow_reason, finalReason_cases]
    constructor
    · intro h
      by_cases hc : priceKnownOf env r = false ∧ preReason env r = Reason.READY_TO_EXECUTE
      · rw [if_pos hc] at h
        cases h
      · rw [if_neg hc] at h
        rcases (preReason_below_iff env r).mp h with ⟨hg, m', hm', hlt⟩
        rw [hm] at hm'
        injection hm' with h'
        subst h'
        exact ⟨hg, hlt⟩
    · rintro ⟨hg, hlt⟩
      have hpre : preReason env r = Reason.BELOW_MIN :=
        (preReason_below_iff env r).mpr ⟨hg, m, hm, hlt⟩
      have hnc : ¬ (priceKnownOf env r = false ∧ preReason env r = Reason.READY_TO_EXECUTE) := by
        rintro ⟨_, h2⟩
        rw [hpre] at h2
        cases h2
      rw [if_neg hnc, hpre]
  · intro heq hg hpk
    have hpre : preReason env r = Reason.READY_TO_EXECUTE := by
      rw [preReason_ready_iff]
      refine ⟨hg, ?_⟩
      intro m' hm'
      rw [hm] at hm'
      injection hm' with h'
      subst h'
      rw [heq]
      exact lt_irrefl m
    rw [classifyRow_reason, finalReason_cases, hpre]
    simp [hpk]

/-- The spec boundary scenario: FOO priced at 10 USD, MIN_USD_PER_TX of
0.01, so the implied floor is 0.001 FOO. -/
def envScen : AnalysisEnv :=
  { prices := fun a => if a = "FOO" then some 10 else none
    minByAsset := fun _ => none
    stablecoinMinUsd := 1/4
    minUsdPerTx := 1/100 }

/-- A row of exactly 0.001 FOO, the boundary amount. -/
def rowScen : PlanRow :=
  { sourceVaultId := "7", assetId := "FOO", amount := 1/1000, destinationVaultId := "2"
    requiresGas := false, gasAssetId := "", gasReady := false }

/-- Witness for C9: at the exact boundary amount 0.001 = 0.01/10 the row is
READY_TO_EXECUTE, not BELOW_MIN. -/
theorem below_min_strict_boundary_witness :
    (classifyRow envScen rowScen).reason = Reason.READY_TO_EXECUTE :=
  (below_min_strict_boundary envScen rowScen (1/1000)
      (by simp [minAmountFor, envScen, rowScen, numOpt,
            show isStable "FOO" = false from by decide]
          norm_num)).2
    rfl rfl
    (by simp [priceKnownOf, envScen, rowScen, numOpt])

/-- C10: a row whose asset matches the stable heuristic always has a known
price fixed at 1, a non-null estimated USD equal to its amount, and is
never UNKNOWN_PRICE — for every price map, including an empty one. -/
theorem stable_asset_always_priced (env : AnalysisEnv) (r : PlanRow)
    (hs : isStable r.assetId = true) :
    priceKnownOf env r = true
    ∧ (classifyRow env r).priceUSD = some 1
    ∧ (classifyRow env r).estUSD = some r.amount
    ∧ (classifyRow env r).reason ≠ Reason.UNKNOWN_PRICE := by
  have hpk : priceKnownOf env r = true := by
    unfold priceKnownOf
    rw [hs]
    simp
  refine ⟨hpk, ?_, ?_, ?_⟩
  · rw [classifyRow_priceUSD, hpk, hs]
    simp
  · rw [classifyRow_estUSD, hpk, hs]
    simp
  · rw [classifyRow_reason, finalReason_cases]
    simp [hpk]
    exact preReason_ne_unknown env r

/-- A 50-unit USDC_POLYGON row (stable by the substring heuristic). -/
def rowStableW : PlanRow :=
  { sourceVaultId := "9", assetId := "USDC_POLYGON", amount := 50, destinationVaultId := "2"
    requiresGas := false, gasAssetId := "", gasReady := false }

/-- Witness for C10: the stable row under the empty price map (offline run
with an empty cache) is priced at 1 with a known estimate. -/
theorem stable_asset_always_priced_witness :
    priceKnownOf envNoGasMin rowStableW = true
    ∧ (classifyRow envNoGasMin rowStableW).priceUSD = some 1
    ∧ (classifyRow envNoGasMin rowStableW).estUSD = some rowStableW.amount
    ∧ (classifyRow envNoGasMin rowStableW).reason ≠ Reason.UNKNOWN_PRICE :=
  stable_asset_always_priced envNoGasMin rowStableW (by decide)

/-! ## Helper lemmas about `loadPricesUsd` -/

/-- After the override pass, an asset with a defined override holds exactly
the override value. -/
lemma applyOverridesStep_of_override (overrides : String → Option ℚ)
    (assetIds : List String) (a : String) (v : ℚ)
    (hov : overrides a = some v) (ha : a ∈ assetIds) :
    applyOverridesStep overrides assetIds a = some v := by
  unfold applyOverridesStep
  refine foldl_establish
    (fun (m : String → Option ℚ) x =>
      match overrides x with
      | some w => upd m x w
      | none => m)
    (fun m => m a = some v) ?_ a ?_ assetIds (fun _ => none) ha
  · intro m x hm
    rcases hx : overrides x with _ | w
    · simpa [hx] using hm
    · simp only [hx]
      by_cases hxa : x = a
      · subst hxa
        rw [hov] at hx
        injection hx with hw
        rw [hw, upd_same]
      · rw [upd_other _ _ _ _ (fun h => hxa h.symm)]
        exact hm
  · intro m
    simp only [hov]
    exact upd_same m a v

/-- The cache pass never overwrites an already-resolved asset. -/
lemma cacheStep_preserves (cached : String → Option ℚ) (assetIds : List String)
    (m0 : String → Option ℚ) (a : String) (v : ℚ) (h : m0 a = some v) :
    cacheStep cached assetIds m0 a = some v := by
  unfold cacheStep
  refine foldl_invariant
    (fun (m : String → Option ℚ) x =>
      if (m x).isSome then m
      else
        match cached x with
        | some w => upd m x w
        | none => m)
    (fun m => m a = some v) ?_ assetIds m0 h
  intro m x hm
  show (if (m x).isSome then m
        else
          match cached x with
          | some w => upd m x w
          | none => m) a = some v
  by_cases hms : (m x).isSome
  · rw [if_pos hms]
    exact hm
  · rw [if_neg hms]
    rcases hc : cached x with _ | w
    · simp only [hc]
      exact hm
    · simp only [hc]
      by_cases hxa : x = a
      · subst hxa
        rw [hm] at hms
        simp at hms
      · rw [upd_other _ _ _ _ (fun h2 => hxa h2.symm)]
        exact hm

/-- The CoinGecko collection pass neither overwrites a resolved asset nor
adds it to the pending fetch list. -/
lemma cgCollect_preserves (assetToCg : String → Option String)
    (cached : String → Option ℚ) (assetIds : List String)
    (m0 : String → Option ℚ) (a : String) (v : ℚ) (h : m0 a = some v) :
    (cgCollect assetToCg cached assetIds m0).1 a = some v ∧
      ∀ p ∈ (cgCollect assetToCg cached assetIds m0).2, p.1 ≠ a := by
  unfold cgCollect
  refine foldl_invariant
    (fun (st : (String → Option ℚ) × List (String × String)) x =>
      if (st.1 x).isSome then st
      else
        match assetToCg x with
        | some cg => (st.1, st.2 ++ [(x, cg)])
        | none =>
          match cached x with
          | some w => (upd st.1 x w, st.2)
          | none => st)
    (fun st => st.1 a = some v ∧ ∀ p ∈ st.2, p.1 ≠ a) ?_ assetIds (m0, []) ⟨h, by simp⟩
  intro st x hst
  show (let st2 :=
          if (st.1 x).isSome then st
          else
            match assetToCg x with
            | some cg => (st.1, st.2 ++ [(x, cg)])
            | none =>
              match cached x with
              | some w => (upd st.1 x w, st.2)
              | none => st
        st2.1 a = some v ∧ ∀ p ∈ st2.2, p.1 ≠ a)
  by_cases hms : (st.1 x).isSome
  · rw [if_pos hms]
    exact hst
  · have hxa : x ≠ a := by
      intro h2
      rw [h2, hst.1] at hms
      simp at hms
    rw [if_neg hms]
    rcases hcg : assetToCg x with _ | cg
    · simp only [hcg]
      rcases hc : cached x with _ | w
      · simp only [hc]
        exact hst
      · simp only [hc]
        refine ⟨?_, hst.2⟩
        show upd st.1 x w a = some v
        rw [upd_other _ _ _ _ (fun h2 => hxa h2.symm)]
        exact hst.1
    · simp only [hcg]
      refine ⟨hst.1, ?_⟩
      intro p hp
      rcases List.mem_append.mp hp with hp | hp
      · exact hst.2 p hp
      · rcases List.mem_singleton.mp hp with rfl
        exact hxa

/-- The fetch pass only writes assets on the pending list. -/
lemma cgFetchStep_preserves (fetch : String → Option ℚ)
    (pend : List (String × String)) (m0 : String → Option ℚ) (a : String) (v : ℚ)
    (h : m0 a = some v) (hp : ∀ p ∈ pend, p.1 ≠ a) :
    cgFetchStep fetch pend m0 a = some v := by
  induction pend generalizing m0 with
  | nil => exact h
  | cons q qs ih =>
    have hstep :
        cgFetchStep fetch (q :: qs) m0 =
          cgFetchStep fetch qs
            (match fetch q.2 with
             | some u => upd m0 q.1 u
             | none => m0) := rfl
    rw [hstep]
    refine ih _ ?_ (fun p hpin => hp p (List.mem_cons_of_mem _ hpin))
    rcases hf : fetch q.2 with _ | u
    · exact h
    · simp only
      rw [upd_other _ _ _ _ (fun h2 => (hp q (List.mem_cons_self q qs)) h2.symm)]
      exact h

/-- Shared core of claims about override precedence: under every price
source, an asset with a defined override resolves to exactly the override
value; no later strategy (cache or live fetch) overwrites it. -/
lemma loadPricesUsd_override (src : PriceSource) (overrides cached : String → Option ℚ)
    (assetToCg : String → Option String) (fetch : String → Option ℚ)
    (assetIds : List String) (a : String) (v : ℚ)
    (hov : overrides a = some v) (ha : a ∈ assetIds) :
    loadPricesUsd src overrides cached assetToCg fetch assetIds a = some v := by
  have h1 := applyOverridesStep_of_override overrides assetIds a v hov ha
  cases src with
  | offline => exact h1
  | cache => exact cacheStep_preserves cached assetIds _ a v h1
  | coingecko =>
    have h2 := cgCollect_preserves assetToCg cached assetIds _ a v h1
    exact cgFetchStep_preserves fetch _ _ a v h2.1 h2.2

/-- C5: for an asset with both a manual override and a live-fetch-resolvable
mapping, the resolved price equals the override for every fetch outcome —
the fetched value never overwrites it (nor does the cache). -/
theorem override_precedence (src : PriceSource) (overrides cached : String → Option ℚ)
    (assetToCg : String → Option String) (fetch : String → Option ℚ)
    (assetIds : List String) (a : String) (v : ℚ)
    (hov : overrides a = some v) (ha : a ∈ assetIds) :
    loadPricesUsd src overrides cached assetToCg fetch assetIds a = some v :=
  loadPricesUsd_override src overrides cached assetToCg fetch assetIds a v hov ha

/-- Overrides table pricing BTC at 42 USD. -/
def ovW : String → Option ℚ := fun a => if a = "BTC" then some 42 else none

/-- CoinGecko mapping that would let BTC live-fetch. -/
def mapW : String → Option String := fun a => if a = "BTC" then some "bitcoin" else none

/-- A fetch outcome returning a different price, 99 USD, for bitcoin. -/
def fetchW : String → Option ℚ := fun c => if c = "bitcoin" then some 99 else none

/-- Witness for C5: BTC has both an override (42) and a fetchable mapping
returning 99; the resolver yields the override 42. -/
theorem override_precedence_witness :
    loadPricesUsd PriceSource.coingecko ovW (fun _ => none) mapW fetchW ["BTC"] "BTC"
      = some 42 :=
  override_precedence PriceSource.coingecko ovW (fun _ => none) mapW fetchW ["BTC"] "BTC" 42
    rfl (List.mem_singleton_self "BTC")

/-- Overrides table pricing ADA at 0 USD (an invalid override per the spec). -/
def ovZero : String → Option ℚ := fun a => if a = "ADA" then some 0 else none

/-- C6 counterexample. The claim says the `part_007` resolver rejects an
override of 0 (method unknown, usd null, never used in valuation). In fact
`loadPricesUsd` (lines 243-246) assigns `Number(overrides[a])` with no
positivity check, the per-asset stats (lines 412-419) report hasPrice true
with method `override`, and the 0 price enters the usdTotal product. -/
theorem override_zero_counterexample :
    loadPricesUsd PriceSource.coingecko ovZero (fun _ => none) (fun _ => none) (fun _ => none)
        ["ADA"] "ADA" = some 0
    ∧ assetMethod ovZero (fun _ => none) (fun _ => none) "ADA" = "override"
    ∧ (loadPricesUsd PriceSource.coingecko ovZero (fun _ => none) (fun _ => none)
        (fun _ => none) ["ADA"] "ADA").isSome = true
    ∧ assetUsdTotal (loadPricesUsd PriceSource.coingecko ovZero (fun _ => none) (fun _ => none)
        (fun _ => none) ["ADA"] "ADA") 7 = 0 := by
  refine ⟨rfl, rfl, rfl, ?_⟩
  rw [show loadPricesUsd PriceSource.coingecko ovZero (fun _ => none) (fun _ => none)
        (fun _ => none) ["ADA"] "ADA" = some 0 from rfl]
  show (7 : ℚ) * 0 = 0
  norm_num

/-- C6 (amended): the `fb_update_prices` pricer of `part_006` rejects
non-positive overrides — every price its override step assigns is strictly
positive, so a 0 or negative override leaves the asset unpriced by that
step; the `part_007` resolver `loadPricesUsd`, by contrast, applies a
defined override unchanged even when it is 0 or negative. -/
theorem override_nonpositive_amended :
    (∀ (entries : List (String × ℚ)) (k : String) (v : ℚ),
        updatePricesOverrideStep entries k = some v → 0 < v)
    ∧ (∀ (src : PriceSource) (overrides cached : String → Option ℚ)
        (assetToCg : String → Option String) (fetch : String → Option ℚ)
        (assetIds : List String) (a : String) (v : ℚ),
        overrides a = some v → v ≤ 0 → a ∈ assetIds →
        loadPricesUsd src overrides cached assetToCg fetch assetIds a = some v) := by
  constructor
  · intro entries k v h
    unfold updatePricesOverrideStep at h
    refine foldl_invariant
      (fun (m : String → Option ℚ) kv => if 0 < kv.2 then upd m kv.1 kv.2 else m)
      (fun m => ∀ k v, m k = some v → 0 < v) ?_ entries
      (fun _ => none) (fun k v h2 => by cases h2) k v h
    intro m kv hm k v h2
    have h3 : (if 0 < kv.2 then upd m kv.1 kv.2 else m) k = some v := h2
    by_cases hpos : 0 < kv.2
    · rw [if_pos hpos] at h3
      by_cases hk : k = kv.1
      · subst hk
        rw [upd_same] at h3
        injection h3 with h4
        rw [← h4]
        exact hpos
      · rw [upd_other _ _ _ _ hk] at h3
        exact hm k v h3
    · rw [if_neg hpos] at h3
      exact hm k v h3
  · intro src overrides cached assetToCg fetch assetIds a v hov _ ha
    exact loadPricesUsd_override src overrides cached assetToCg fetch assetIds a v hov ha

/-- Witness for the amended C6: a -3 override entry is dropped by the
`part_006` step (so ADA stays unpriced there), while `loadPricesUsd`
resolves the 0 override of `ovZero` to the price 0. -/
theorem override_nonpositive_amended_witness :
    updatePricesOverrideStep [("ADA", -3)] "ADA" = none
    ∧ loadPricesUsd PriceSource.offline ovZero (fun _ => none) (fun _ => none) (fun _ => none)
        ["ADA"] "ADA" = some 0 := by
  refine ⟨?_, override_nonpositive_amended.2 PriceSource.offline ovZero (fun _ => none)
    (fun _ => none) (fun _ => none) ["ADA"] "ADA" 0 rfl le_rfl (List.mem_singleton_self "ADA")⟩
  show (if (0:ℚ) < -3 then upd (fun _ => none) "ADA" (-3) else fun _ => none) "ADA" = none
  rw [if_neg (by norm_num)]

/-- An existing cache file pricing bitcoin at 5 USD. -/
def oldCacheW : String → Option ℚ := fun k => if k = "bitcoin" then some 5 else none

/-- C7 counterexample. The claim says the persisted price cache is always
rewritten by merge, citing the cache write of `re_eval.js` among its
sources. But `fetchPricesUsd` there (lines 113-114) rewrites
`last_prices_usd.json` with only the prices fetched in this run — it never
reads the old cache (the old file is not even an input of the write), so an
old entry (bitcoin at 5) is dropped when this run resolves nothing. -/
theorem cache_merge_counterexample :
    reEvalCacheWrite [("X", "xcg")] (fun _ => none) "bitcoin" = none
    ∧ oldCacheW "bitcoin" = some 5 := ⟨rfl, rfl⟩

/-- C7 (amended): the cache rewrite of `getPrices` in
`fireblocks_analysis_v2.js` (line 120) is a merge — a key not resolved in
this run keeps its old cache value, and a key resolved in this run is
upserted with the new value (`loadPricesUsd` of `part_007` merges the same
way); `re_eval.js`, however, rewrites the cache with only this run's
fetched prices. -/
theorem cache_merge_amended :
    (∀ (cached : String → Option ℚ) (assetToCg : String → Option String)
        (fetch : String → Option ℚ) (assets : List String) (k : String),
        getPricesRun false cached assetToCg fetch assets k = none →
        mergedCacheWrite cached (getPricesRun false cached assetToCg fetch assets) k
          = cached k)
    ∧ (∀ (cached : String → Option ℚ) (assetToCg : String → Option String)
        (fetch : String → Option ℚ) (assets : List String) (k : String) (v : ℚ),
        getPricesRun false cached assetToCg fetch assets k = some v →
        mergedCacheWrite cached (getPricesRun false cached assetToCg fetch assets) k
          = some v) := by
  constructor
  · intro cached assetToCg fetch assets k h
    unfold mergedCacheWrite
    rw [h]
  · intro cached assetToCg fetch assets k v h
    unfold mergedCacheWrite
    rw [h]

/-- Witness for the amended C7: with old cache `oldCacheW`, a run over the
unpriced asset Y resolves nothing, and the merged rewrite keeps the old
bitcoin entry; a run over USDC resolves it to 1 (stable) and the merge
upserts it. -/
theorem cache_merge_amended_witness :
    mergedCacheWrite oldCacheW
        (getPricesRun false oldCacheW (fun _ => none) (fun _ => none) ["Y"]) "bitcoin"
      = oldCacheW "bitcoin"
    ∧ mergedCacheWrite oldCacheW
        (getPricesRun false oldCacheW (fun _ => none) (fun _ => none) ["USDC"]) "USDC"
      = some 1 :=
  ⟨cache_merge_amended.1 oldCacheW (fun _ => none) (fun _ => none) ["Y"] "bitcoin"
      (by simp [getPricesRun, getPricesStable, getPricesCached, getPricesFetch,
            oldCacheW, numOpt, upd, show isStable "Y" = false from by decide]),
   cache_merge_amended.2 oldCacheW (fun _ => none) (fun _ => none) ["USDC"] "USDC" 1
      (by simp [getPricesRun, getPricesStable, getPricesCached, getPricesFetch,
            oldCacheW, numOpt, upd, show isStable "USDC" = true from by decide])⟩

/-- Evaluation rule of `percentile` on a nonempty list once the index, its
floor and its ceiling are known. -/
lemma percentile_eval (l : List ℚ) (p q : ℚ) (lo hi : ℤ)
    (hne : ¬ l.length = 0)
    (hidx : ((l.length - 1 : ℕ) : ℚ) * p = q)
    (hfl : ⌊q⌋ = lo) (hcl : ⌈q⌉ = hi) :
    percentile l p =
      (if lo = hi then l.getD lo.toNat 0
       else l.getD lo.toNat 0 * (1 - (q - lo)) + l.getD hi.toNat 0 * (q - lo)) := by
  simp only [percentile]
  rw [if_neg hne, hidx, hfl, hcl]

/-- C8: the percentile of `[1,2,3,4]` is computed by linear interpolation at
index `(n-1)*p`: p50 = 2.5 (index 1.5), p90 = 3.7 (index 2.7); at p = 0 and
p = 1 it returns the first and last order statistic. -/
theorem percentile_spec_values :
    percentile [1, 2, 3, 4] (1/2) = 5/2
    ∧ percentile [1, 2, 3, 4] (9/10) = 37/10
    ∧ percentile [1, 2, 3, 4] 0 = 1
    ∧ percentile [1, 2, 3, 4] 1 = 4 := by
  refine ⟨?_, ?_, ?_, ?_⟩
  · rw [percentile_eval [1, 2, 3, 4] (1/2) (3/2) 1 2 (by norm_num) (by norm_num)
          (by rw [Int.floor_eq_iff]; norm_num)
          (by rw [Int.ceil_eq_iff]; norm_num),
        if_neg (by norm_num : ¬ (1:ℤ) = 2),
        show ([1, 2, 3, 4] : List ℚ).getD ((1:ℤ).toNat) 0 = 2 from rfl,
        show ([1, 2, 3, 4] : List ℚ).getD ((2:ℤ).toNat) 0 = 3 from rfl]
    norm_num
  · rw [percentile_eval [1, 2, 3, 4] (9/10) (27/10) 2 3 (by norm_num) (by norm_num)
          (by rw [Int.floor_eq_iff]; norm_num)
          (by rw [Int.ceil_eq_iff]; norm_num),
        if_neg (by norm_num : ¬ (2:ℤ) = 3),
        show ([1, 2, 3, 4] : List ℚ).getD ((2:ℤ).toNat) 0 = 3 from rfl,
        show ([1, 2, 3, 4] : List ℚ).getD ((3:ℤ).toNat) 0 = 4 from rfl]
    norm_num
  · rw [percentile_eval [1, 2, 3, 4] 0 0 0 0 (by norm_num) (by norm_num)
          (by norm_num) (by norm_num),
        if_pos rfl]
    rfl
  · rw [percentile_eval [1, 2, 3, 4] 1 3 3 3 (by norm_num) (by norm_num)
          (by norm_num) (by norm_num),
        if_pos rfl]
    rfl

end FBScripts
